import Mathlib

/-!
Verification of the audio chunking / encoding / dispatch / stitching pipeline
of an audio-transcription web application (services/geminiService.ts and the
surrounding modules).

Modelling conventions:
* JavaScript numbers carrying times, durations and samples are modelled as
  rationals (the loop arithmetic of the source stays exact on the values it
  actually produces);
* JavaScript strings are modelled as lists of character codes (`List Nat`);
* byte buffers are lists of naturals below 256;
* the remote transcription service is an oracle indexed by invocation count;
* effects (reading the file, decoding, remote calls) are recorded in a trace.
-/

namespace AudioPipeline

/-- Character codes of a string literal (JavaScript strings as code-unit
sequences). -/
def strCodes (s : String) : List Nat :=
  s.toList.map Char.toNat

/-- Decimal rendering of a natural number as character codes, matching the
JavaScript template-literal rendering of a nonnegative integer. -/
def natDec (n : Nat) : List Nat :=
  if n = 0 then [48] else ((Nat.digits 10 n).map (fun d => 48 + d)).reverse

/-- Left inverse of `natDec`, used to prove injectivity. -/
def natDecInv (l : List Nat) : Nat :=
  Nat.ofDigits 10 (l.reverse.map (fun c => c - 48))

/-- JavaScript `String.prototype.includes`, on code lists. -/
def containsSub (needle : List Nat) : List Nat → Bool
  | [] => needle.isEmpty
  | c :: t => needle.isPrefixOf (c :: t) || containsSub needle t

/-- Two bytes of a 16-bit little-endian store (`DataView.setUint16` /
`setInt16` after integer conversion). -/
def le16 (v : Nat) : List Nat :=
  [v % 256, v / 256 % 256]

/-- Four bytes of a 32-bit little-endian store (`DataView.setUint32`,
which wraps its argument modulo 2^32). -/
def le32 (v : Nat) : List Nat :=
  [v % 256, v / 256 % 256, v / 65536 % 256, v / 16777216 % 256]

/-- Little-endian read of a 16-bit field at a byte offset. -/
def readLE16 (bytes : List Nat) (off : Nat) : Nat :=
  bytes.getD off 0 + 256 * bytes.getD (off + 1) 0

/-- Little-endian read of a 32-bit field at a byte offset. -/
def readLE32 (bytes : List Nat) (off : Nat) : Nat :=
  bytes.getD off 0 + 256 * bytes.getD (off + 1) 0 +
    65536 * bytes.getD (off + 2) 0 + 16777216 * bytes.getD (off + 3) 0

/-- Truncation toward zero: the integer-conversion step JavaScript applies
to the (possibly fractional) scaled sample before a 16-bit store. -/
def truncQ (q : ℚ) : Int :=
  if q < 0 then ⌈q⌉ else ⌊q⌋

/-- The unsigned 16-bit pattern `DataView.setInt16` stores for a numeric
value: truncate toward zero, then reduce modulo 2^16 (two's complement). -/
def toUint16 (q : ℚ) : Nat :=
  (truncQ q % 65536).toNat

/-- Clamping and scaling of one float sample, from `encodeWAV`:
`s = Math.max(-1, Math.min(1, samples[i])); s = s < 0 ? s * 0x8000 : s * 0x7FFF`. -/
def scaleSample (x : ℚ) : ℚ :=
  let s := max (-1) (min 1 x)
  if s < 0 then s * 32768 else s * 32767

/-- The two payload bytes written for one sample. -/
def sampleBytes (x : ℚ) : List Nat :=
  le16 (toUint16 (scaleSample x))

/-- Byte-level model of `encodeWAV(samples, sampleRate)`: 44-byte RIFF/WAVE
header followed by 16-bit little-endian PCM samples. -/
def encodeWAV (samples : List ℚ) (sampleRate : Nat) : List Nat :=
  strCodes "RIFF" ++ le32 (36 + samples.length * 2) ++ strCodes "WAVE" ++
    strCodes "fmt " ++ le32 16 ++ le16 1 ++ le16 1 ++ le32 sampleRate ++
    le32 (sampleRate * 2) ++ le16 2 ++ le16 16 ++
    strCodes "data" ++ le32 (samples.length * 2) ++ samples.flatMap sampleBytes

/-- Chunk duration in seconds (`CHUNK_DURATION_SECONDS`). -/
def CHUNK_DURATION_SECONDS : ℚ := 60

/-- Byte threshold that triggers chunking (`CHUNK_THRESHOLD_BYTES`,
2.5 * 1024 * 1024). -/
def CHUNK_THRESHOLD_BYTES : ℚ := 2.5 * 1024 * 1024

/-- The slicing loop of `processChunkedAudio`, restricted to the window
intervals it cuts: starting from cursor `t`, repeatedly cut
`[currentTime, min(currentTime + W, totalDuration))` and advance the cursor
to the window end, until the cursor reaches the total duration.  The loop is
fuel-indexed; every use below supplies sufficient fuel. -/
def chunkLoop (fuel : Nat) (t D W : ℚ) : List (ℚ × ℚ) :=
  match fuel with
  | 0 => []
  | fuel + 1 =>
    if t < D then
      (t, min (t + W) D) :: chunkLoop fuel (min (t + W) D) D W
    else []

/-- Fuel sufficient to exhaust the slicing loop for total duration `D`. -/
def chunkFuel (D : ℚ) : Nat :=
  (⌈D / 60⌉).toNat + 1

/-- The window intervals the chunked path produces for total duration `D`. -/
def chunkWindows (D : ℚ) : List (ℚ × ℚ) :=
  chunkLoop (chunkFuel D) 0 D CHUNK_DURATION_SECONDS

/-- A subtitle segment as produced by the service layer (types.ts). -/
structure SubtitleSegment where
  id : List Nat
  startTime : ℚ
  endTime : ℚ
  originalText : List Nat
  translatedText : List Nat
deriving DecidableEq

/-- Decimal rendering of a loop cursor.  In `processChunkedAudio` the cursor
interpolated into id strings and error messages is always a nonnegative
integer number of seconds (0, 60, 120, …), for which JavaScript template
rendering is plain decimal. -/
def qDec (t : ℚ) : List Nat :=
  natDec t.num.toNat

/-- The synthesized id of the index-th parsed element in
`processSingleChunk`: `seg-` then `Date.now()` then `-` then the index. -/
def innerId (now idx : Nat) : List Nat :=
  strCodes "seg-" ++ natDec now ++ 45 :: natDec idx

/-- Id rederivation in the chunked loop: `seg-` then the window start time
then `-` then the segment's previous id. -/
def combineId (t : ℚ) (inner : List Nat) : List Nat :=
  strCodes "seg-" ++ qDec t ++ 45 :: inner

/-- Timestamp and id adjustment of one segment for a window starting at `t`
seconds (`processChunkedAudio`, success branch). -/
def adjustSeg (t : ℚ) (seg : SubtitleSegment) : SubtitleSegment :=
  { seg with
    id := combineId t seg.id
    startTime := seg.startTime + t
    endTime := seg.endTime + t }

/-- The final sort of `processChunkedAudio`:
`allSegments.sort((a, b) => a.startTime - b.startTime)`, a stable ascending
sort by start time (ECMAScript sort is required to be stable). -/
def sortSegs (segs : List SubtitleSegment) : List SubtitleSegment :=
  segs.mergeSort (fun a b => decide (a.startTime ≤ b.startTime))

/-- The stitching computation of `processChunkedAudio` over a finished list
of windows, each a start time with the segments its call returned: adjust,
concatenate in window order, sort stably by start time. -/
def stitch (windows : List (ℚ × List SubtitleSegment)) : List SubtitleSegment :=
  sortSegs (windows.flatMap (fun w => w.2.map (adjustSeg w.1)))

/-- JavaScript padStart(2, '0') on a rendered number. -/
def padTwo (s : List Nat) : List Nat :=
  List.replicate (2 - s.length) 48 ++ s

/-- The helper formatTime from geminiService.ts: minutes are `Math.floor(seconds/60)`,
seconds are `Math.floor(seconds % 60)`, rendered minutes, colon, seconds
padded to two digits. -/
def formatTime (t : ℚ) : List Nat :=
  natDec (⌊t / 60⌋).toNat ++ 58 :: padTwo (natDec (⌊t - 60 * ⌊t / 60⌋⌋).toNat)

/-- The error thrown when a window fails:
`Failed to process audio segment at (formatTime t). API Error.` -/
def chunkFailMsg (t : ℚ) : List Nat :=
  strCodes "Failed to process audio segment at " ++ formatTime t ++
    strCodes ". API Error."

/-- The rewritten user-facing message of the top-level catch. -/
def networkErrorMsg : List Nat :=
  strCodes "Network error during upload. The file size might exceed the API's payload limit. Please try a smaller file or ensure your network is stable."

/-- Error thrown when the API key is absent. -/
def apiKeyMissingMsg : List Nat :=
  strCodes "API Key is missing from environment variables."

/-- Error for a missing or empty response text. -/
def noResponseMsg : List Nat :=
  strCodes "No response text received."

/-- Error for an unparseable response text. -/
def parseFailMsg : List Nat :=
  strCodes "Failed to parse JSON response."

/-- Error for a parsed response that is not an array. -/
def notArrayMsg : List Nat :=
  strCodes "Model response was not an array."

/-- The error-message test of the top-level catch in `processAudioWithGemini`:
does the message include `Rpc failed` or `xhr error`. -/
def isNetworkErrorMsg (m : List Nat) : Bool :=
  containsSub (strCodes "Rpc failed") m || containsSub (strCodes "xhr error") m

/-- The top-level catch of `processAudioWithGemini`: a network-looking error
is rewritten to the user-facing payload-size hint, anything else rethrown. -/
def rewriteTopLevel (r : Except (List Nat) (List SubtitleSegment)) :
    Except (List Nat) (List SubtitleSegment) :=
  match r with
  | .ok segs => .ok segs
  | .error m => .error (if isNetworkErrorMsg m then networkErrorMsg else m)

/-- JSON values, for the response-shape handling of `processSingleChunk`. -/
inductive JValue where
  | null : JValue
  | bool (b : Bool) : JValue
  | num (q : ℚ) : JValue
  | str (s : List Nat) : JValue
  | arr (items : List JValue) : JValue
  | obj (fields : List (List Nat × JValue)) : JValue

/-- The TypeError raised by JavaScript property access on `null`.  Engine
message texts vary; the model keeps the accessed key in the message and the
claims only rely on the access failing. -/
def nullAccessErrorMsg (key : List Nat) : List Nat :=
  strCodes "Cannot read properties of null (reading " ++ key ++ strCodes ")"

/-- JavaScript property access `item[key]`: a field lookup on an object,
undefined on any other non-null value (numbers, strings, booleans, arrays),
and a thrown TypeError on `null` — which `JSON.parse` can produce as an
array element. -/
def jGet (v : JValue) (key : List Nat) : Except (List Nat) (Option JValue) :=
  match v with
  | .null => .error (nullAccessErrorMsg key)
  | .obj fields => .ok ((fields.find? (fun f => f.1 == key)).map Prod.snd)
  | _ => .ok none

/-- The pure field view of a non-null value: the object field when present,
undefined otherwise.  For `v ≠ null` it agrees with `jGet`. -/
def jField (v : JValue) (key : List Nat) : Option JValue :=
  match v with
  | .obj fields => (fields.find? (fun f => f.1 == key)).map Prod.snd
  | _ => none

/-- A segment record as `processSingleChunk` builds it from one parsed array
element: the four fields are copied by property access, so an absent field is
copied as undefined. -/
structure ParsedSegment where
  id : List Nat
  startTime : Option JValue
  endTime : Option JValue
  originalText : Option JValue
  translatedText : Option JValue

/-- One array element turned into a segment record by the map callback of
`processSingleChunk`: the object literal evaluates `startTime`, `endTime`,
`originalText`, `translatedText` by property access in that order, so a
null element throws on the first access. -/
def parseElement (now idx : Nat) (item : JValue) :
    Except (List Nat) ParsedSegment := do
  let st ← jGet item (strCodes "startTime")
  let et ← jGet item (strCodes "endTime")
  let ot ← jGet item (strCodes "originalText")
  let tt ← jGet item (strCodes "translatedText")
  pure (ParsedSegment.mk (innerId now idx) st et ot tt)

/-- The `parsedData.map((item, index) => ...)` call: elements are mapped in
order and the first throwing element aborts the whole map. -/
def mapElements (now : Nat) : Nat → List JValue → Except (List Nat) (List ParsedSegment)
  | _, [] => .ok []
  | i, item :: rest => do
    let s ← parseElement now i item
    let tail ← mapElements now (i + 1) rest
    pure (s :: tail)

/-- Response handling of `processSingleChunk` after the transport call.  The
reply is `none` when the response text is missing or empty (falsy), `some
none` when the text does not parse as JSON, and `some (some v)` when it
parses to the value `v`. -/
def parseSingleChunkResponse (now : Nat) (reply : Option (Option JValue)) :
    Except (List Nat) (List ParsedSegment) :=
  match reply with
  | none => .error noResponseMsg
  | some none => .error parseFailMsg
  | some (some (JValue.arr items)) => mapElements now 0 items
  | some (some _) => .error notArrayMsg

/-- Modelled from the spec: the declared response shape of §4.5 — a JSON
array whose elements each carry the four mandatory fields with their declared
types (numbers and strings).  Used only to compare the specified failure
condition against the implemented one. -/
def declaredShape (v : JValue) : Bool :=
  match v with
  | .arr items => items.all (fun item =>
      (match jField item (strCodes "startTime") with
       | some (JValue.num _) => true
       | _ => false) &&
      (match jField item (strCodes "endTime") with
       | some (JValue.num _) => true
       | _ => false) &&
      (match jField item (strCodes "originalText") with
       | some (JValue.str _) => true
       | _ => false) &&
      (match jField item (strCodes "translatedText") with
       | some (JValue.str _) => true
       | _ => false))
  | _ => false

/-- The payload of one remote invocation: the original file bytes on the
single-shot path, an encoded WAV window on the chunked path. -/
inductive Payload where
  | file (bytes : List Nat) : Payload
  | wav (bytes : List Nat) : Payload
deriving DecidableEq

/-- Observable effects of a run, in order. -/
inductive Event where
  | readFile : Event
  | decodeResample : Event
  | remoteCall (p : Payload) : Event
deriving DecidableEq

/-- A user-supplied file: reported byte size, raw bytes, and the mono 16 kHz
samples its decode and resample stage yields. -/
structure AudioFile where
  size : Nat
  bytes : List Nat
  pcm : List ℚ

/-- The remote transcription service, as an oracle indexed by invocation
count: call number `k` with a payload either returns that call's parsed
segments or throws an error message. -/
abbrev Oracle := Nat → Payload → Except (List Nat) (List SubtitleSegment)

/-- PCM slice for the window from `t` to `e`:
`pcmData.slice(Math.floor(t*16000), Math.floor(e*16000))`. -/
def slicePCM (pcm : List ℚ) (t e : ℚ) : List ℚ :=
  (pcm.take (⌊e * 16000⌋).toNat).drop (⌊t * 16000⌋).toNat

/-- The WAV payload dispatched for one window. -/
def windowPayload (pcm : List ℚ) (w : ℚ × ℚ) : Payload :=
  Payload.wav (encodeWAV (slicePCM pcm w.1 w.2) 16000)

/-- The while-loop of `processChunkedAudio`: cut the next window, encode and
dispatch it (the oracle is indexed by call number `k`), adjust and accumulate
its segments on success, abort with the window-level error message on the
first failure, and sort the accumulator once the cursor reaches the total
duration. -/
def chunkedLoop (call : Oracle) (pcm : List ℚ) (fuel k : Nat) (t D : ℚ)
    (acc : List SubtitleSegment) :
    List Event × Except (List Nat) (List SubtitleSegment) :=
  match fuel with
  | 0 => ([], .ok (sortSegs acc))
  | fuel + 1 =>
    if t < D then
      match call k (windowPayload pcm (t, min (t + CHUNK_DURATION_SECONDS) D)) with
      | .error _ =>
          ([Event.remoteCall (windowPayload pcm (t, min (t + CHUNK_DURATION_SECONDS) D))],
            .error (chunkFailMsg t))
      | .ok segs =>
          let r := chunkedLoop call pcm fuel (k + 1) (min (t + CHUNK_DURATION_SECONDS) D) D
            (acc ++ segs.map (adjustSeg t))
          (Event.remoteCall (windowPayload pcm (t, min (t + CHUNK_DURATION_SECONDS) D)) :: r.1,
            r.2)
    else ([], .ok (sortSegs acc))

/-- Model of processChunkedAudio: read the file's bytes, decode and resample to
16 kHz mono, then run the slicing loop from cursor 0 with an empty
accumulator.  The total duration is the resampled length over 16000. -/
def processChunkedAudio (call : Oracle) (f : AudioFile) :
    List Event × Except (List Nat) (List SubtitleSegment) :=
  (Event.readFile :: Event.decodeResample ::
      (chunkedLoop call f.pcm (chunkFuel ((f.pcm.length : ℚ) / 16000)) 0 0
        ((f.pcm.length : ℚ) / 16000) []).1,
    (chunkedLoop call f.pcm (chunkFuel ((f.pcm.length : ℚ) / 16000)) 0 0
      ((f.pcm.length : ℚ) / 16000) []).2)

/-- Model of processSingleChunk at the dispatch level: read the blob, send its bytes
as call number 0, return that call's result. -/
def processSingleChunk (call : Oracle) (bytes : List Nat) :
    List Event × Except (List Nat) (List SubtitleSegment) :=
  ([Event.readFile, Event.remoteCall (Payload.file bytes)],
    call 0 (Payload.file bytes))

/-- Model of processAudioWithGemini: throw if the API key is missing, then branch
purely on the file's byte size against the 2.5 MiB threshold — small files go
to `processSingleChunk` on the original bytes, large files to
`processChunkedAudio` — rewriting network-looking errors in the shared
catch. -/
def processAudioWithGemini (apiKey : Option (List Nat)) (call : Oracle)
    (f : AudioFile) : List Event × Except (List Nat) (List SubtitleSegment) :=
  match apiKey with
  | none => ([], .error apiKeyMissingMsg)
  | some _ =>
    if (f.size : ℚ) < CHUNK_THRESHOLD_BYTES then
      ((processSingleChunk call f.bytes).1,
        rewriteTopLevel (processSingleChunk call f.bytes).2)
    else
      ((processChunkedAudio call f).1,
        rewriteTopLevel (processChunkedAudio call f).2)

/-- Example windows at offsets 0, 60 and 120 seconds, each with one local
segment spanning 0 to 5 seconds, all three with the same window-local id. -/
def exampleWindows : List (ℚ × List SubtitleSegment) :=
  [(0, [SubtitleSegment.mk (strCodes "seg-1-0") 0 5 (strCodes "hello") (strCodes "nihao")]),
   (60, [SubtitleSegment.mk (strCodes "seg-1-0") 0 5 (strCodes "world") (strCodes "shijie")]),
   (120, [SubtitleSegment.mk (strCodes "seg-1-0") 0 5 (strCodes "again") (strCodes "zaici")])]

/-! ## Theorems -/

theorem chunkLoop_nil {fuel : Nat} {t D W : ℚ} (h : ¬ t < D) :
    chunkLoop fuel t D W = [] := by
  cases fuel <;> simp [chunkLoop, h]

/-- Structure of a completed run of the slicing loop: nonempty, first window
starts at the cursor, last window ends at the total duration, consecutive
windows share their cut point, every window is nonempty, and the i-th window
starts at `t + W * i`. -/
theorem chunkLoop_spec {W : ℚ} (hW : 0 < W) :
    ∀ (fuel : Nat) (t D : ℚ), D - t ≤ fuel * W → t < D →
      chunkLoop fuel t D W ≠ [] ∧
      (chunkLoop fuel t D W).head? = some (t, min (t + W) D) ∧
      ((chunkLoop fuel t D W).getLast?).map Prod.snd = some D ∧
      List.Chain' (fun u v => u.2 = v.1) (chunkLoop fuel t D W) ∧
      (∀ w ∈ chunkLoop fuel t D W, w.1 < w.2) ∧
      (∀ i, i < (chunkLoop fuel t D W).length →
        ((chunkLoop fuel t D W).getD i (0, 0)).1 = t + W * i) := by
  intro fuel
  induction fuel with
  | zero =>
    intro t D hfuel ht
    exfalso
    simp at hfuel
    linarith
  | succ n ih =>
    intro t D hfuel ht
    have hunfold : chunkLoop (n + 1) t D W =
        (t, min (t + W) D) :: chunkLoop n (min (t + W) D) D W := by
      simp [chunkLoop, ht]
    by_cases he : min (t + W) D < D
    · have hmin : min (t + W) D = t + W := by
        rcases min_cases (t + W) D with ⟨h1, _⟩ | ⟨h1, h2⟩
        · exact h1
        · exfalso; rw [h1] at he; exact lt_irrefl D he
      have hfuel' : D - (t + W) ≤ n * W := by
        push_cast at hfuel ⊢
        linarith
      have hrec := ih (t + W) D hfuel' (by rw [hmin] at he; exact he)
      obtain ⟨hne, hhead, hlast, hchain, hlt, hget⟩ := hrec
      rw [hmin] at hunfold
      rw [hunfold]
      refine ⟨by simp, by simp [hmin], ?_, ?_, ?_, ?_⟩
      · obtain ⟨c, t', hct⟩ := List.exists_cons_of_ne_nil hne
        rw [hct, List.getLast?_cons_cons, ← hct]
        exact hlast
      · rw [List.chain'_cons']
        constructor
        · intro b hb
          rw [hhead] at hb
          simp only [Option.mem_def, Option.some.injEq] at hb
          subst hb
          rfl
        · exact hchain
      · intro w hw
        rcases List.mem_cons.mp hw with h | h
        · rw [h]; simp; linarith
        · exact hlt w h
      · intro i hi
        cases i with
        | zero => simp
        | succ j =>
          rw [List.getD_cons_succ]
          have hj : j < (chunkLoop n (t + W) D W).length := by
            simpa using Nat.lt_of_succ_lt_succ (by simpa using hi)
          rw [hget j hj]
          push_cast
          ring
    · have he' : min (t + W) D = D := by
        rcases min_cases (t + W) D with ⟨h1, h2⟩ | ⟨h1, _⟩
        · rw [h1]
          rw [h1] at he
          exact le_antisymm h2 (not_lt.mp he)
        · exact h1
      have hrest : chunkLoop n (min (t + W) D) D W = [] := by
        apply chunkLoop_nil
        rw [he']
        exact lt_irrefl D
      rw [hrest] at hunfold
      rw [hunfold]
      refine ⟨by simp, rfl, by simp [he'], by simp, ?_, ?_⟩
      · intro w hw
        simp at hw
        rw [hw, he']
        exact ht
      · intro i hi
        have : i = 0 := by
          simp at hi
          omega
        subst this
        simp

theorem chunkFuel_suff (D : ℚ) : D - 0 ≤ chunkFuel D * 60 := by
  rcases le_or_lt D 0 with hD | hD
  · have h0 : (0 : ℚ) ≤ (chunkFuel D : ℚ) * 60 := by positivity
    linarith
  · have h1 : D / 60 ≤ (⌈D / 60⌉ : ℚ) := Int.le_ceil _
    have h3 : D ≤ (⌈D / 60⌉ : ℚ) * 60 := by
      have := mul_le_mul_of_nonneg_right h1 (by norm_num : (0 : ℚ) ≤ 60)
      rw [div_mul_cancel₀] at this
      · exact this
      · norm_num
    have h5 : (⌈D / 60⌉ : ℤ) ≤ ((⌈D / 60⌉.toNat : ℕ) : ℤ) := Int.self_le_toNat _
    have h6 : (⌈D / 60⌉ : ℚ) ≤ ((⌈D / 60⌉.toNat : ℕ) : ℚ) := by exact_mod_cast h5
    have hq : (chunkFuel D : ℚ) = ((⌈D / 60⌉.toNat : ℕ) : ℚ) + 1 := by
      unfold chunkFuel
      push_cast
      ring
    have h7 : (⌈D / 60⌉ : ℚ) * 60 ≤ ((⌈D / 60⌉.toNat : ℕ) : ℚ) * 60 :=
      mul_le_mul_of_nonneg_right h6 (by norm_num)
    rw [hq]
    linarith

/-- A chain of windows whose cut points coincide covers exactly the interval
from the first start to the last end. -/
theorem chain_cover (e : ℚ) :
    ∀ (l : List (ℚ × ℚ)) (a : ℚ × ℚ),
      ((a :: l).getLast (by simp)).2 = e →
      List.Chain' (fun u v => u.2 = v.1) (a :: l) →
      (∀ w ∈ a :: l, w.1 < w.2) →
      ∀ x : ℚ, (a.1 ≤ x ∧ x < e) ↔ ∃ w ∈ a :: l, w.1 ≤ x ∧ x < w.2 := by
  intro l
  induction l with
  | nil =>
    intro a hlast _ hlt x
    simp only [List.getLast_singleton] at hlast
    simp only [List.mem_singleton]
    constructor
    · intro ⟨h1, h2⟩
      exact ⟨a, rfl, h1, by rw [hlast]; exact h2⟩
    · rintro ⟨w, rfl, h1, h2⟩
      exact ⟨h1, by rw [← hlast]; exact h2⟩
  | cons b t ih =>
    intro a hlast hchain hlt x
    have hab : a.2 = b.1 := by
      rw [List.chain'_cons] at hchain
      exact hchain.1
    have hlast' : ((b :: t).getLast (by simp)).2 = e := by
      rw [List.getLast_cons (by simp : b :: t ≠ [])] at hlast
      exact hlast
    have hchain' : List.Chain' (fun u v => u.2 = v.1) (b :: t) := by
      rw [List.chain'_cons] at hchain
      exact hchain.2
    have hlt' : ∀ w ∈ b :: t, w.1 < w.2 := fun w hw => hlt w (List.mem_cons_of_mem _ hw)
    have hIH := ih b hlast' hchain' hlt' x
    have hble : b.1 < e := by
      have := (ih b hlast' hchain' hlt' b.1).mpr
        ⟨b, List.mem_cons_self _ _, le_refl _, hlt b (by simp)⟩
      exact this.2
    constructor
    · intro ⟨h1, h2⟩
      by_cases hx : x < a.2
      · exact ⟨a, List.mem_cons_self _ _, h1, hx⟩
      · push_neg at hx
        have : b.1 ≤ x := by rw [← hab]; exact hx
        obtain ⟨w, hw, hw1, hw2⟩ := hIH.mp ⟨this, h2⟩
        exact ⟨w, List.mem_cons_of_mem _ hw, hw1, hw2⟩
    · rintro ⟨w, hw, hw1, hw2⟩
      rcases List.mem_cons.mp hw with rfl | hw'
      · refine ⟨hw1, ?_⟩
        calc x < w.2 := hw2
          _ = b.1 := hab
          _ < e := hble
      · have hbx := hIH.mpr ⟨w, hw', hw1, hw2⟩
        refine ⟨le_of_lt ?_, hbx.2⟩
        calc a.1 < a.2 := hlt a (by simp)
          _ = b.1 := hab
          _ ≤ x := hbx.1

/-- A clip no longer than one window yields exactly one window. -/
theorem chunkWindows_eq_single {D : ℚ} (hD : 0 < D) (hD2 : D ≤ 60) :
    chunkWindows D = [(0, D)] := by
  have hmin : min (0 + 60) D = D := by
    rw [zero_add]
    exact min_eq_right hD2
  unfold chunkWindows chunkFuel
  rw [show chunkLoop ((⌈D / 60⌉).toNat + 1) 0 D CHUNK_DURATION_SECONDS =
    if 0 < D then
      (0, min (0 + CHUNK_DURATION_SECONDS) D) ::
        chunkLoop (⌈D / 60⌉).toNat (min (0 + CHUNK_DURATION_SECONDS) D) D
          CHUNK_DURATION_SECONDS
    else [] from rfl]
  rw [if_pos hD]
  rw [show CHUNK_DURATION_SECONDS = 60 from rfl, hmin, chunkLoop_nil (lt_irrefl D)]

/-- C1: for every duration D > 0 with 60-second windows, the slicing loop of
the chunked path produces nonempty windows that are contiguous (each window
ends where the next starts), non-overlapping, in strictly increasing start
order, start at 0, end exactly at D, and cover exactly [0, D); a duration
D ≤ 60 yields exactly one window spanning the whole clip. -/
theorem chunkWindows_covers (D : ℚ) (hD : 0 < D) :
    chunkWindows D ≠ [] ∧
    (chunkWindows D).head?.map Prod.fst = some 0 ∧
    ((chunkWindows D).getLast?).map Prod.snd = some D ∧
    List.Chain' (fun u v => u.2 = v.1) (chunkWindows D) ∧
    (∀ w ∈ chunkWindows D, w.1 < w.2) ∧
    List.Pairwise (fun u v => u.1 < v.1) (chunkWindows D) ∧
    List.Pairwise (fun u v => u.2 ≤ v.1) (chunkWindows D) ∧
    (∀ x : ℚ, (0 ≤ x ∧ x < D) ↔ ∃ w ∈ chunkWindows D, w.1 ≤ x ∧ x < w.2) ∧
    (D ≤ 60 → chunkWindows D = [(0, D)]) := by
  have hcw : chunkWindows D = chunkLoop (chunkFuel D) 0 D 60 := rfl
  have hfuel : D - 0 ≤ (chunkFuel D : ℚ) * 60 := chunkFuel_suff D
  obtain ⟨hne, hhead, hlast, hchain, hlt, hget⟩ :=
    chunkLoop_spec (by norm_num : (0 : ℚ) < 60) (chunkFuel D) 0 D hfuel hD
  rw [hcw]
  have hstart : ∀ i, ∀ hi : i < (chunkLoop (chunkFuel D) 0 D 60).length,
      (chunkLoop (chunkFuel D) 0 D 60)[i].1 = 60 * i := by
    intro i hi
    rw [← List.getD_eq_getElem _ (0, 0) hi, hget i hi]
    ring
  refine ⟨hne, ?_, hlast, hchain, hlt, ?_, ?_, ?_, ?_⟩
  · rw [hhead]; rfl
  · rw [List.pairwise_iff_getElem]
    intro i j hi hj hij
    rw [hstart i hi, hstart j hj]
    have : (i : ℚ) < (j : ℚ) := by exact_mod_cast hij
    linarith
  · rw [List.pairwise_iff_getElem]
    intro i j hi hj hij
    have hij1 : i + 1 ≤ j := hij
    have hi1 : i < (chunkLoop (chunkFuel D) 0 D 60).length - 1 := by omega
    have hcg := List.chain'_iff_get.mp hchain i hi1
    have hi1' : i + 1 < (chunkLoop (chunkFuel D) 0 D 60).length := by omega
    rw [List.get_eq_getElem, List.get_eq_getElem] at hcg
    calc (chunkLoop (chunkFuel D) 0 D 60)[i].2
        = (chunkLoop (chunkFuel D) 0 D 60)[i + 1].1 := hcg
      _ = 60 * (i + 1 : Nat) := hstart (i + 1) hi1'
      _ ≤ 60 * (j : Nat) := by
          have : ((i : ℚ) + 1) ≤ (j : ℚ) := by exact_mod_cast hij1
          push_cast
          linarith
      _ = (chunkLoop (chunkFuel D) 0 D 60)[j].1 := (hstart j hj).symm
  · obtain ⟨a, rest, hal⟩ := List.exists_cons_of_ne_nil hne
    have ha1 : a.1 = 0 := by
      rw [hal] at hhead
      simp only [List.head?_cons, Option.some.injEq] at hhead
      rw [hhead]
    have hlast' : ((a :: rest).getLast (by simp)).2 = D := by
      rw [hal] at hlast
      rw [List.getLast?_eq_getLast _ (by simp)] at hlast
      simp only [Option.map_some', Option.some.injEq] at hlast
      exact hlast
    have hchain' : List.Chain' (fun u v => u.2 = v.1) (a :: rest) := by
      rw [hal] at hchain; exact hchain
    have hlt' : ∀ w ∈ a :: rest, w.1 < w.2 := by
      rw [hal] at hlt; exact hlt
    intro x
    rw [hal]
    have := chain_cover D rest a hlast' hchain' hlt' x
    rw [ha1] at this
    exact this
  · intro hD2
    exact chunkWindows_eq_single hD hD2

/-- Witness for C1 at the non-multiple duration D = 90. -/
theorem chunkWindows_covers_witness :
    (0 : ℚ) < 90 ∧
    (chunkWindows 90 ≠ [] ∧
    (chunkWindows 90).head?.map Prod.fst = some 0 ∧
    ((chunkWindows 90).getLast?).map Prod.snd = some 90 ∧
    List.Chain' (fun u v => u.2 = v.1) (chunkWindows 90) ∧
    (∀ w ∈ chunkWindows 90, w.1 < w.2) ∧
    List.Pairwise (fun u v => u.1 < v.1) (chunkWindows 90) ∧
    List.Pairwise (fun u v => u.2 ≤ v.1) (chunkWindows 90) ∧
    (∀ x : ℚ, (0 ≤ x ∧ x < 90) ↔ ∃ w ∈ chunkWindows 90, w.1 ≤ x ∧ x < w.2) ∧
    ((90 : ℚ) ≤ 60 → chunkWindows 90 = [(0, 90)])) :=
  ⟨by norm_num, chunkWindows_covers 90 (by norm_num)⟩

theorem natDecInv_natDec (n : Nat) : natDecInv (natDec n) = n := by
  unfold natDec natDecInv
  split
  · simp_all [Nat.ofDigits]
  · rw [List.reverse_reverse, List.map_map]
    have h : ∀ d ∈ Nat.digits 10 n, ((fun c => c - 48) ∘ fun d => 48 + d) d = d := by
      intro d _; simp
    rw [List.map_congr_left h, List.map_id']
    exact Nat.ofDigits_digits 10 n

theorem natDec_inj {a b : Nat} (h : natDec a = natDec b) : a = b := by
  have := congrArg natDecInv h
  rwa [natDecInv_natDec, natDecInv_natDec] at this

theorem natDec_digit_range {n c : Nat} (h : c ∈ natDec n) : 48 ≤ c ∧ c ≤ 57 := by
  unfold natDec at h
  split at h
  · simp at h; omega
  · rw [List.mem_reverse, List.mem_map] at h
    obtain ⟨d, hd, rfl⟩ := h
    have := Nat.digits_lt_base (by norm_num) hd
    omega

theorem containsSub_head_mem {c : Nat} {needle hay : List Nat}
    (h : containsSub (c :: needle) hay = true) : c ∈ hay := by
  induction hay with
  | nil => simp [containsSub] at h
  | cons d t ih =>
    simp only [containsSub, Bool.or_eq_true] at h
    rcases h with h | h
    · rw [List.isPrefixOf_cons₂] at h
      have : c = d := by
        have := Bool.and_elim_left h
        simpa using this
      simp [this]
    · exact List.mem_cons_of_mem _ (ih h)

theorem length_sampleBytes (x : ℚ) : (sampleBytes x).length = 2 := rfl

theorem length_flatMap_sampleBytes (l : List ℚ) :
    (l.flatMap sampleBytes).length = 2 * l.length := by
  induction l with
  | nil => rfl
  | cons a t ih => simp [List.flatMap_cons, length_sampleBytes, ih]; ring

/-- The encoder output decomposed as header plus payload. -/
theorem encodeWAV_decomp (samples : List ℚ) (R : Nat) :
    encodeWAV samples R =
      (strCodes "RIFF" ++ le32 (36 + samples.length * 2) ++ strCodes "WAVE" ++
        strCodes "fmt " ++ le32 16 ++ le16 1 ++ le16 1 ++ le32 R ++
        le32 (R * 2) ++ le16 2 ++ le16 16 ++
        strCodes "data" ++ le32 (samples.length * 2)) ++ samples.flatMap sampleBytes := by
  simp [encodeWAV, List.append_assoc]

theorem getD_drop (m : Nat) : ∀ (l : List Nat) (k : Nat),
    (l.drop m).getD k 0 = l.getD (m + k) 0 := by
  induction m with
  | zero => intro l k; simp
  | succ n ih =>
    intro l k
    cases l with
    | nil => simp
    | cons a t =>
      rw [List.drop_succ_cons, ih t k]
      simp [Nat.succ_add]

theorem le32_recompose {v : Nat} (h : v < 4294967296) :
    v % 256 + 256 * (v / 256 % 256) + 65536 * (v / 65536 % 256) +
      16777216 * (v / 16777216 % 256) = v := by
  omega

set_option maxHeartbeats 4000000 in
/-- The encoder output as an explicit byte sequence. -/
theorem encodeWAV_cons (samples : List ℚ) (R : Nat) :
    encodeWAV samples R =
      82 :: 73 :: 70 :: 70 ::
      ((36 + samples.length * 2) % 256) :: ((36 + samples.length * 2) / 256 % 256) ::
      ((36 + samples.length * 2) / 65536 % 256) ::
      ((36 + samples.length * 2) / 16777216 % 256) ::
      87 :: 65 :: 86 :: 69 ::
      102 :: 109 :: 116 :: 32 ::
      16 :: 0 :: 0 :: 0 ::
      1 :: 0 ::
      1 :: 0 ::
      (R % 256) :: (R / 256 % 256) :: (R / 65536 % 256) :: (R / 16777216 % 256) ::
      ((R * 2) % 256) :: ((R * 2) / 256 % 256) :: ((R * 2) / 65536 % 256) ::
      ((R * 2) / 16777216 % 256) ::
      2 :: 0 ::
      16 :: 0 ::
      100 :: 97 :: 116 :: 97 ::
      ((samples.length * 2) % 256) :: ((samples.length * 2) / 256 % 256) ::
      ((samples.length * 2) / 65536 % 256) :: ((samples.length * 2) / 16777216 % 256) ::
      samples.flatMap sampleBytes := rfl

/-- C3: for N mono float samples at rate R, `encodeWAV` produces a 44-byte
header followed by a 2N-byte payload; re-reading the header little-endian
yields container size 36+2N, payload size 2N, sample rate R, channel count 1,
byte rate 2R, block align 2 and 16 bits per sample. -/
theorem encodeWAV_header_fields (samples : List ℚ) (R : Nat)
    (hR : R * 2 < 4294967296) (hN : 36 + samples.length * 2 < 4294967296) :
    (encodeWAV samples R).length = 44 + 2 * samples.length ∧
    readLE32 (encodeWAV samples R) 4 = 36 + samples.length * 2 ∧
    readLE32 (encodeWAV samples R) 40 = samples.length * 2 ∧
    readLE32 (encodeWAV samples R) 24 = R ∧
    readLE16 (encodeWAV samples R) 22 = 1 ∧
    readLE32 (encodeWAV samples R) 28 = R * 2 ∧
    readLE16 (encodeWAV samples R) 32 = 2 ∧
    readLE16 (encodeWAV samples R) 34 = 16 := by
  refine ⟨?_, ?_, ?_, ?_, ?_, ?_, ?_, ?_⟩
  · rw [encodeWAV_cons]
    simp only [List.length_cons, length_flatMap_sampleBytes]
    omega
  · rw [encodeWAV_cons]
    have : readLE32 (82 :: 73 :: 70 :: 70 ::
        ((36 + samples.length * 2) % 256) :: ((36 + samples.length * 2) / 256 % 256) ::
        ((36 + samples.length * 2) / 65536 % 256) ::
        ((36 + samples.length * 2) / 16777216 % 256) ::
        87 :: 65 :: 86 :: 69 ::
        102 :: 109 :: 116 :: 32 ::
        16 :: 0 :: 0 :: 0 ::
        1 :: 0 ::
        1 :: 0 ::
        (R % 256) :: (R / 256 % 256) :: (R / 65536 % 256) :: (R / 16777216 % 256) ::
        ((R * 2) % 256) :: ((R * 2) / 256 % 256) :: ((R * 2) / 65536 % 256) ::
        ((R * 2) / 16777216 % 256) ::
        2 :: 0 ::
        16 :: 0 ::
        100 :: 97 :: 116 :: 97 ::
        ((samples.length * 2) % 256) :: ((samples.length * 2) / 256 % 256) ::
        ((samples.length * 2) / 65536 % 256) :: ((samples.length * 2) / 16777216 % 256) ::
        samples.flatMap sampleBytes) 4 =
        (36 + samples.length * 2) % 256 + 256 * ((36 + samples.length * 2) / 256 % 256) +
        65536 * ((36 + samples.length * 2) / 65536 % 256) +
        16777216 * ((36 + samples.length * 2) / 16777216 % 256) := rfl
    rw [this, le32_recompose hN]
  · rw [encodeWAV_cons]
    refine Eq.trans (b := (samples.length * 2) % 256 + 256 * ((samples.length * 2) / 256 % 256) +
        65536 * ((samples.length * 2) / 65536 % 256) +
        16777216 * ((samples.length * 2) / 16777216 % 256)) rfl ?_
    exact le32_recompose (by omega)
  · rw [encodeWAV_cons]
    refine Eq.trans (b := R % 256 + 256 * (R / 256 % 256) +
        65536 * (R / 65536 % 256) + 16777216 * (R / 16777216 % 256)) rfl ?_
    exact le32_recompose (by omega)
  · rw [encodeWAV_cons]; rfl
  · rw [encodeWAV_cons]
    refine Eq.trans (b := (R * 2) % 256 + 256 * ((R * 2) / 256 % 256) +
        65536 * ((R * 2) / 65536 % 256) + 16777216 * ((R * 2) / 16777216 % 256)) rfl ?_
    exact le32_recompose hR
  · rw [encodeWAV_cons]; rfl
  · rw [encodeWAV_cons]; rfl

/-- Witness for C3 at three concrete samples and rate 16000. -/
theorem encodeWAV_header_fields_witness :
    (16000 * 2 < 4294967296 ∧
      36 + ([(1 : ℚ)/2, -1/3, 1].length) * 2 < 4294967296) ∧
    ((encodeWAV [(1 : ℚ)/2, -1/3, 1] 16000).length = 44 + 2 * [(1 : ℚ)/2, -1/3, 1].length ∧
    readLE32 (encodeWAV [(1 : ℚ)/2, -1/3, 1] 16000) 4 = 36 + [(1 : ℚ)/2, -1/3, 1].length * 2 ∧
    readLE32 (encodeWAV [(1 : ℚ)/2, -1/3, 1] 16000) 40 = [(1 : ℚ)/2, -1/3, 1].length * 2 ∧
    readLE32 (encodeWAV [(1 : ℚ)/2, -1/3, 1] 16000) 24 = 16000 ∧
    readLE16 (encodeWAV [(1 : ℚ)/2, -1/3, 1] 16000) 22 = 1 ∧
    readLE32 (encodeWAV [(1 : ℚ)/2, -1/3, 1] 16000) 28 = 16000 * 2 ∧
    readLE16 (encodeWAV [(1 : ℚ)/2, -1/3, 1] 16000) 32 = 2 ∧
    readLE16 (encodeWAV [(1 : ℚ)/2, -1/3, 1] 16000) 34 = 16) :=
  ⟨⟨by norm_num, by norm_num⟩,
    encodeWAV_header_fields [(1 : ℚ)/2, -1/3, 1] 16000 (by norm_num) (by norm_num)⟩

theorem flatMap_sampleBytes_getD (l : List ℚ) (i : Nat) (h : i < l.length) :
    (l.flatMap sampleBytes).getD (2 * i) 0 =
      toUint16 (scaleSample (l.get ⟨i, h⟩)) % 256 ∧
    (l.flatMap sampleBytes).getD (2 * i + 1) 0 =
      toUint16 (scaleSample (l.get ⟨i, h⟩)) / 256 % 256 := by
  induction l generalizing i with
  | nil => simp at h
  | cons a t ih =>
    cases i with
    | zero =>
      constructor
      · rfl
      · rfl
    | succ j =>
      have hj : j < t.length := by simpa using Nat.lt_of_succ_lt_succ h
      obtain ⟨h1, h2⟩ := ih j hj
      have e1 : 2 * (j + 1) = 2 * j + 1 + 1 := by ring
      have e2 : 2 * (j + 1) + 1 = 2 * j + 1 + 1 + 1 := by ring
      constructor
      · rw [e1]
        show (sampleBytes a ++ t.flatMap sampleBytes).getD (2 * j + 1 + 1) 0 = _
        rw [show sampleBytes a ++ t.flatMap sampleBytes =
          (sampleBytes a).getD 0 0 :: (sampleBytes a).getD 1 0 :: t.flatMap sampleBytes from rfl]
        rw [List.getD_cons_succ, List.getD_cons_succ]
        exact h1
      · rw [e2]
        show (sampleBytes a ++ t.flatMap sampleBytes).getD (2 * j + 1 + 1 + 1) 0 = _
        rw [show sampleBytes a ++ t.flatMap sampleBytes =
          (sampleBytes a).getD 0 0 :: (sampleBytes a).getD 1 0 :: t.flatMap sampleBytes from rfl]
        rw [List.getD_cons_succ, List.getD_cons_succ]
        exact h2

/-- C6: the payload starts at byte 44; the two bytes at offsets 44+2i and
45+2i are the little-endian 16-bit store of sample i clamped to [-1,1] and
scaled by 32768 if negative, 32767 otherwise (truncated toward zero). -/
theorem encodeWAV_payload_values (samples : List ℚ) (R : Nat) (i : Nat)
    (h : i < samples.length) :
    (encodeWAV samples R).drop 44 = samples.flatMap sampleBytes ∧
    (encodeWAV samples R).getD (44 + 2 * i) 0 =
      toUint16 (scaleSample (samples.get ⟨i, h⟩)) % 256 ∧
    (encodeWAV samples R).getD (44 + 2 * i + 1) 0 =
      toUint16 (scaleSample (samples.get ⟨i, h⟩)) / 256 % 256 := by
  have hdrop : (encodeWAV samples R).drop 44 = samples.flatMap sampleBytes := by
    rw [encodeWAV_cons]; rfl
  obtain ⟨h1, h2⟩ := flatMap_sampleBytes_getD samples i h
  refine ⟨hdrop, ?_, ?_⟩
  · rw [← getD_drop 44, hdrop]; exact h1
  · rw [show 44 + 2 * i + 1 = 44 + (2 * i + 1) by ring, ← getD_drop 44, hdrop]; exact h2

/-- Witness for C6 at a concrete fractional, negative and overflowing sample. -/
theorem encodeWAV_payload_values_witness :
    (1 : Nat) < [(1 : ℚ)/2, -2, 3].length ∧
    ((encodeWAV [(1 : ℚ)/2, -2, 3] 16000).drop 44 =
        [(1 : ℚ)/2, -2, 3].flatMap sampleBytes ∧
    (encodeWAV [(1 : ℚ)/2, -2, 3] 16000).getD (44 + 2 * 1) 0 =
      toUint16 (scaleSample ([(1 : ℚ)/2, -2, 3].get ⟨1, by norm_num⟩)) % 256 ∧
    (encodeWAV [(1 : ℚ)/2, -2, 3] 16000).getD (44 + 2 * 1 + 1) 0 =
      toUint16 (scaleSample ([(1 : ℚ)/2, -2, 3].get ⟨1, by norm_num⟩)) / 256 % 256) :=
  ⟨by norm_num, encodeWAV_payload_values [(1 : ℚ)/2, -2, 3] 16000 1 (by norm_num)⟩

theorem chunkedLoop_events_ok (call : Oracle) (pcm : List ℚ)
    (hok : ∀ k p, ∃ segs, call k p = .ok segs) :
    ∀ (fuel k : Nat) (t D : ℚ) (acc : List SubtitleSegment),
      (chunkedLoop call pcm fuel k t D acc).1 =
        (chunkLoop fuel t D CHUNK_DURATION_SECONDS).map
          (fun w => Event.remoteCall (windowPayload pcm w)) := by
  intro fuel
  induction fuel with
  | zero => intro k t D acc; simp [chunkedLoop, chunkLoop]
  | succ n ih =>
    intro k t D acc
    by_cases ht : t < D
    · obtain ⟨segs, hs⟩ := hok k (windowPayload pcm (t, min (t + CHUNK_DURATION_SECONDS) D))
      simp [chunkedLoop, chunkLoop, ht, hs, ih]
    · simp [chunkedLoop, chunkLoop, ht]

theorem chunkedLoop_events_wav (call : Oracle) (pcm : List ℚ) :
    ∀ (fuel k : Nat) (t D : ℚ) (acc : List SubtitleSegment) (b : List Nat),
      Event.remoteCall (Payload.file b) ∉ (chunkedLoop call pcm fuel k t D acc).1 := by
  intro fuel
  induction fuel with
  | zero => intro k t D acc b; simp [chunkedLoop]
  | succ n ih =>
    intro k t D acc b
    by_cases ht : t < D
    · cases hs : call k (windowPayload pcm (t, min (t + CHUNK_DURATION_SECONDS) D)) with
      | error m =>
        simp only [chunkedLoop, ht, if_true, hs]
        simp [windowPayload]
      | ok segs =>
        simp only [chunkedLoop, ht, if_true, hs, List.mem_cons]
        rintro (h | h)
        · simp [windowPayload] at h
        · exact ih _ _ _ _ _ h
    · simp [chunkedLoop, ht]

theorem chunkedLoop_fail (call : Oracle) (pcm : List ℚ) :
    ∀ (fuel j k : Nat) (t D : ℚ) (acc : List SubtitleSegment),
      j < (chunkLoop fuel t D CHUNK_DURATION_SECONDS).length →
      (∀ i, i < j → ∃ segs, call (k + i)
        (windowPayload pcm ((chunkLoop fuel t D CHUNK_DURATION_SECONDS).getD i (0, 0))) =
          .ok segs) →
      (∃ m, call (k + j)
        (windowPayload pcm ((chunkLoop fuel t D CHUNK_DURATION_SECONDS).getD j (0, 0))) =
          .error m) →
      chunkedLoop call pcm fuel k t D acc =
        (((chunkLoop fuel t D CHUNK_DURATION_SECONDS).take (j + 1)).map
            (fun w => Event.remoteCall (windowPayload pcm w)),
          .error (chunkFailMsg
            (((chunkLoop fuel t D CHUNK_DURATION_SECONDS).getD j (0, 0))).1)) := by
  intro fuel
  induction fuel with
  | zero =>
    intro j k t D acc hj _ _
    simp [chunkLoop] at hj
  | succ n ih =>
    intro j k t D acc hj hprev hfail
    by_cases ht : t < D
    · have hunfold : chunkLoop (n + 1) t D CHUNK_DURATION_SECONDS =
          (t, min (t + CHUNK_DURATION_SECONDS) D) ::
            chunkLoop n (min (t + CHUNK_DURATION_SECONDS) D) D CHUNK_DURATION_SECONDS := by
        simp [chunkLoop, ht]
      cases j with
      | zero =>
        obtain ⟨m, hm⟩ := hfail
        rw [hunfold] at hm
        simp only [List.getD_cons_zero, Nat.add_zero] at hm
        rw [hunfold]
        simp [chunkedLoop, ht, hm]
      | succ j' =>
        obtain ⟨segs, hs⟩ := hprev 0 (Nat.succ_pos j')
        rw [hunfold] at hs
        simp only [List.getD_cons_zero, Nat.add_zero] at hs
        have hj' : j' < (chunkLoop n (min (t + CHUNK_DURATION_SECONDS) D) D
            CHUNK_DURATION_SECONDS).length := by
          rw [hunfold] at hj
          simpa using Nat.lt_of_succ_lt_succ hj
        have hprev' : ∀ i, i < j' → ∃ segs2, call (k + 1 + i)
            (windowPayload pcm ((chunkLoop n (min (t + CHUNK_DURATION_SECONDS) D) D
              CHUNK_DURATION_SECONDS).getD i (0, 0))) = .ok segs2 := by
          intro i hi
          have := hprev (i + 1) (Nat.succ_lt_succ hi)
          rw [hunfold] at this
          simp only [List.getD_cons_succ] at this
          have harith : k + (i + 1) = k + 1 + i := by omega
          rwa [harith] at this
        have hfail' : ∃ m, call (k + 1 + j')
            (windowPayload pcm ((chunkLoop n (min (t + CHUNK_DURATION_SECONDS) D) D
              CHUNK_DURATION_SECONDS).getD j' (0, 0))) = .error m := by
          obtain ⟨m, hm⟩ := hfail
          rw [hunfold] at hm
          simp only [List.getD_cons_succ] at hm
          have harith : k + (j' + 1) = k + 1 + j' := by omega
          rw [harith] at hm
          exact ⟨m, hm⟩
        have hrec := ih j' (k + 1) (min (t + CHUNK_DURATION_SECONDS) D) D
          (acc ++ segs.map (adjustSeg t)) hj' hprev' hfail'
        rw [hunfold]
        simp only [chunkedLoop, ht, if_true, hs, hrec, List.take_succ_cons, List.map_cons,
          List.getD_cons_succ]
    · rw [chunkLoop_nil ht] at hj
      simp at hj

/-- C10: with the API key absent, `processAudioWithGemini` throws the
API-key error before reading the file, before decoding, and before any remote
call: the effect trace is empty. -/
theorem processAudioWithGemini_noKey (call : Oracle) (f : AudioFile) :
    processAudioWithGemini none call f = ([], .error apiKeyMissingMsg) := rfl

/-- C9: a zero-duration (empty) resampled input produces zero windows, and
the chunked path returns an empty result having read and decoded the file but
never invoking the remote service. -/
theorem processChunkedAudio_empty (call : Oracle) (f : AudioFile)
    (hpcm : f.pcm = []) :
    chunkWindows ((f.pcm.length : ℚ) / 16000) = [] ∧
    processChunkedAudio call f = ([Event.readFile, Event.decodeResample], .ok []) ∧
    (∀ p, Event.remoteCall p ∉ (processChunkedAudio call f).1) := by
  have hlen : ((f.pcm.length : ℚ) / 16000) = 0 := by
    rw [hpcm]
    norm_num
  have hwin : chunkWindows ((f.pcm.length : ℚ) / 16000) = [] := by
    unfold chunkWindows
    exact chunkLoop_nil (by rw [hlen]; exact lt_irrefl 0)
  have hloop : chunkedLoop call f.pcm (chunkFuel ((f.pcm.length : ℚ) / 16000)) 0 0
      ((f.pcm.length : ℚ) / 16000) [] = ([], .ok []) := by
    have h0 : ¬ (0 : ℚ) < (f.pcm.length : ℚ) / 16000 := by
      rw [hlen]
      exact lt_irrefl 0
    cases hf : chunkFuel ((f.pcm.length : ℚ) / 16000) with
    | zero => simp [chunkedLoop, sortSegs]
    | succ n => simp [chunkedLoop, h0, sortSegs]
  refine ⟨hwin, ?_, ?_⟩
  · unfold processChunkedAudio
    rw [hloop]
  · intro p
    unfold processChunkedAudio
    rw [hloop]
    simp

/-- Witness for C9 at a concrete empty file. -/
theorem processChunkedAudio_empty_witness :
    (AudioFile.mk 2621440 [] []).pcm = [] ∧
    (chunkWindows (((AudioFile.mk 2621440 [] []).pcm.length : ℚ) / 16000) = [] ∧
    processChunkedAudio (fun _ _ => .ok []) (AudioFile.mk 2621440 [] []) =
      ([Event.readFile, Event.decodeResample], .ok []) ∧
    (∀ p, Event.remoteCall p ∉
      (processChunkedAudio (fun _ _ => .ok []) (AudioFile.mk 2621440 [] [])).1)) :=
  ⟨rfl, processChunkedAudio_empty (fun _ _ => .ok []) (AudioFile.mk 2621440 [] []) rfl⟩

theorem natDec_zero : natDec 0 = [48] := rfl

theorem formatTime_mul60 (k : Nat) :
    formatTime (60 * (k : ℚ)) = natDec k ++ [58, 48, 48] := by
  have h1 : (60 * (k : ℚ)) / 60 = (k : ℚ) := by
    rw [mul_comm, mul_div_assoc]
    norm_num
  unfold formatTime padTwo
  rw [h1, Int.floor_natCast]
  have h2 : 60 * (k : ℚ) - 60 * (((k : ℕ) : ℤ) : ℚ) = 0 := by
    push_cast
    ring
  rw [h2, Int.floor_zero]
  have h3 : ((0 : ℤ)).toNat = 0 := rfl
  have h4 : (((k : ℕ) : ℤ)).toNat = k := Int.toNat_natCast k
  rw [h3, h4, natDec_zero]
  rfl

theorem chunkFailMsg_inj_mul60 {k1 k2 : Nat}
    (h : chunkFailMsg (60 * (k1 : ℚ)) = chunkFailMsg (60 * (k2 : ℚ))) : k1 = k2 := by
  unfold chunkFailMsg at h
  rw [formatTime_mul60, formatTime_mul60] at h
  simp only [List.append_assoc] at h
  have h2 := List.append_cancel_left h
  exact natDec_inj (List.append_cancel_right h2)

theorem chunkWindows_start_getD (D : ℚ) (i : Nat)
    (hi : i < (chunkWindows D).length) :
    ((chunkWindows D).getD i (0, 0)).1 = 60 * (i : ℚ) := by
  have hD : 0 < D := by
    by_contra hcon
    have hnil : chunkWindows D = [] := chunkLoop_nil hcon
    rw [hnil] at hi
    simp at hi
  have hcw : chunkWindows D = chunkLoop (chunkFuel D) 0 D 60 := rfl
  rw [hcw] at hi ⊢
  obtain ⟨_, _, _, _, _, hget⟩ :=
    chunkLoop_spec (by norm_num : (0 : ℚ) < 60) (chunkFuel D) 0 D (chunkFuel_suff D) hD
  rw [hget i hi]
  ring

theorem chunkWindows_starts_lt (D : ℚ) :
    List.Pairwise (fun u v : ℚ × ℚ => u.1 < v.1) (chunkWindows D) := by
  rw [List.pairwise_iff_getElem]
  intro i j hi hj hij
  rw [← List.getD_eq_getElem _ (0, 0) hi, ← List.getD_eq_getElem _ (0, 0) hj,
    chunkWindows_start_getD D i hi, chunkWindows_start_getD D j hj]
  have : (i : ℚ) < j := by exact_mod_cast hij
  linarith

/-- C5: if some window's call fails after all earlier windows succeeded, the
chunked pipeline stops right there: windows 0..j are the only dispatches, no
segment from the earlier successful windows is returned — the run yields the
single window-level error — and the error message determines the failing
window's start time (window index to message is injective). -/
theorem processChunkedAudio_abortsOnFailure (call : Oracle) (f : AudioFile)
    (D : ℚ) (ws : List (ℚ × ℚ)) (j : Nat)
    (hD : D = (f.pcm.length : ℚ) / 16000) (hws : ws = chunkWindows D)
    (hj : j < ws.length)
    (hprev : ∀ i, i < j → ∃ segs,
      call i (windowPayload f.pcm (ws.getD i (0, 0))) = .ok segs)
    (hfail : ∃ m, call j (windowPayload f.pcm (ws.getD j (0, 0))) = .error m) :
    processChunkedAudio call f =
      (Event.readFile :: Event.decodeResample ::
        (ws.take (j + 1)).map (fun w => Event.remoteCall (windowPayload f.pcm w)),
        .error (chunkFailMsg ((ws.getD j (0, 0))).1)) ∧
    (∀ i i', i < ws.length → i' < ws.length →
      chunkFailMsg ((ws.getD i (0, 0))).1 = chunkFailMsg ((ws.getD i' (0, 0))).1 →
      i = i') := by
  subst hD
  subst hws
  constructor
  · have hcw : chunkWindows ((f.pcm.length : ℚ) / 16000) =
        chunkLoop (chunkFuel ((f.pcm.length : ℚ) / 16000)) 0
          ((f.pcm.length : ℚ) / 16000) CHUNK_DURATION_SECONDS := rfl
    rw [hcw] at hj hprev hfail ⊢
    have hfl := chunkedLoop_fail call f.pcm
      (chunkFuel ((f.pcm.length : ℚ) / 16000)) j 0 0
      ((f.pcm.length : ℚ) / 16000) [] hj
      (by intro i hi; simpa using hprev i hi)
      (by simpa using hfail)
    unfold processChunkedAudio
    rw [hfl]
  · intro i i' hi hi' heq
    rw [chunkWindows_start_getD _ i hi, chunkWindows_start_getD _ i' hi'] at heq
    exact chunkFailMsg_inj_mul60 heq

/-- Witness for C5: a one-window file whose only call fails. -/
theorem processChunkedAudio_abortsOnFailure_witness :
    ((((AudioFile.mk 2621440 [] [0]).pcm.length : ℚ) / 16000) =
        (((AudioFile.mk 2621440 [] [0]).pcm.length : ℚ) / 16000) ∧
      chunkWindows (((AudioFile.mk 2621440 [] [0]).pcm.length : ℚ) / 16000) =
        chunkWindows (((AudioFile.mk 2621440 [] [0]).pcm.length : ℚ) / 16000) ∧
      0 < (chunkWindows (((AudioFile.mk 2621440 [] [0]).pcm.length : ℚ) / 16000)).length) ∧
    (processChunkedAudio (fun _ _ => .error (strCodes "Rpc failed"))
        (AudioFile.mk 2621440 [] [0]) =
      (Event.readFile :: Event.decodeResample ::
        ((chunkWindows (((AudioFile.mk 2621440 [] [0]).pcm.length : ℚ) / 16000)).take
            (0 + 1)).map
          (fun w => Event.remoteCall (windowPayload (AudioFile.mk 2621440 [] [0]).pcm w)),
        .error (chunkFailMsg
          (((chunkWindows (((AudioFile.mk 2621440 [] [0]).pcm.length : ℚ) / 16000)).getD 0
            (0, 0))).1)) ∧
    (∀ i i',
      i < (chunkWindows (((AudioFile.mk 2621440 [] [0]).pcm.length : ℚ) / 16000)).length →
      i' < (chunkWindows (((AudioFile.mk 2621440 [] [0]).pcm.length : ℚ) / 16000)).length →
      chunkFailMsg
          (((chunkWindows (((AudioFile.mk 2621440 [] [0]).pcm.length : ℚ) / 16000)).getD i
            (0, 0))).1 =
        chunkFailMsg
          (((chunkWindows (((AudioFile.mk 2621440 [] [0]).pcm.length : ℚ) / 16000)).getD i'
            (0, 0))).1 →
      i = i')) :=
  ⟨⟨rfl, rfl, by rw [chunkWindows_eq_single (by norm_num) (by norm_num)]; decide⟩,
    processChunkedAudio_abortsOnFailure (fun _ _ => .error (strCodes "Rpc failed"))
      (AudioFile.mk 2621440 [] [0]) _ _ 0 rfl rfl
      (by rw [chunkWindows_eq_single (by norm_num) (by norm_num)]; decide)
      (by intro i hi; exact absurd hi (by omega))
      ⟨strCodes "Rpc failed", rfl⟩⟩

/-- C4: the router branches purely on byte size at the 2.5 MiB threshold.
Below it, exactly one remote call carries the original file bytes and a
successful client result is returned unmodified, with no decoding.  At or
above it, the file is read, decoded and chunked, and — when every call
succeeds — the remote service is invoked once per window in window order,
whose start times are strictly increasing; the chunked path never dispatches
the original file bytes, whatever the oracle answers (no fallback). -/
theorem processAudioWithGemini_router (key : List Nat) (call : Oracle)
    (f g : AudioFile)
    (hf : (f.size : ℚ) < CHUNK_THRESHOLD_BYTES)
    (hg : ¬ (g.size : ℚ) < CHUNK_THRESHOLD_BYTES)
    (hok : ∀ k p, ∃ segs, call k p = .ok segs) :
    (processAudioWithGemini (some key) call f).1 =
      [Event.readFile, Event.remoteCall (Payload.file f.bytes)] ∧
    (∀ segs, call 0 (Payload.file f.bytes) = .ok segs →
      processAudioWithGemini (some key) call f =
        ([Event.readFile, Event.remoteCall (Payload.file f.bytes)], .ok segs)) ∧
    (processAudioWithGemini (some key) call g).1 =
      Event.readFile :: Event.decodeResample ::
        (chunkWindows ((g.pcm.length : ℚ) / 16000)).map
          (fun w => Event.remoteCall (windowPayload g.pcm w)) ∧
    List.Pairwise (fun u v => u.1 < v.1)
      (chunkWindows ((g.pcm.length : ℚ) / 16000)) ∧
    (∀ (call2 : Oracle) (b : List Nat),
      Event.remoteCall (Payload.file b) ∉
        (processAudioWithGemini (some key) call2 g).1) := by
  refine ⟨?_, ?_, ?_, chunkWindows_starts_lt _, ?_⟩
  · unfold processAudioWithGemini
    rw [if_pos hf]
    rfl
  · intro segs hs
    unfold processAudioWithGemini
    rw [if_pos hf]
    unfold processSingleChunk rewriteTopLevel
    rw [hs]
  · unfold processAudioWithGemini
    rw [if_neg hg]
    unfold processChunkedAudio
    rw [chunkedLoop_events_ok call g.pcm hok]
    rfl
  · intro call2 b
    unfold processAudioWithGemini
    rw [if_neg hg]
    unfold processChunkedAudio
    simp only [List.mem_cons]
    push_neg
    exact ⟨by simp, by simp, chunkedLoop_events_wav call2 g.pcm _ _ _ _ _ b⟩

/-- Witness for C4: a small file just below and a file exactly at the
threshold, with an always-succeeding oracle. -/
theorem processAudioWithGemini_router_witness :
    (((AudioFile.mk 2621439 [7] []).size : ℚ) < CHUNK_THRESHOLD_BYTES ∧
      ¬ ((AudioFile.mk 2621440 [] [0]).size : ℚ) < CHUNK_THRESHOLD_BYTES ∧
      (∀ k p, ∃ segs, (fun (_ : Nat) (_ : Payload) =>
        (.ok [] : Except (List Nat) (List SubtitleSegment))) k p = .ok segs)) ∧
    ((processAudioWithGemini (some [])
        (fun _ _ => .ok []) (AudioFile.mk 2621439 [7] [])).1 =
      [Event.readFile, Event.remoteCall (Payload.file (AudioFile.mk 2621439 [7] []).bytes)] ∧
    (∀ segs, (fun (_ : Nat) (_ : Payload) =>
        (.ok [] : Except (List Nat) (List SubtitleSegment))) 0
          (Payload.file (AudioFile.mk 2621439 [7] []).bytes) = .ok segs →
      processAudioWithGemini (some []) (fun _ _ => .ok []) (AudioFile.mk 2621439 [7] []) =
        ([Event.readFile, Event.remoteCall (Payload.file (AudioFile.mk 2621439 [7] []).bytes)],
          .ok segs)) ∧
    (processAudioWithGemini (some []) (fun _ _ => .ok []) (AudioFile.mk 2621440 [] [0])).1 =
      Event.readFile :: Event.decodeResample ::
        (chunkWindows (((AudioFile.mk 2621440 [] [0]).pcm.length : ℚ) / 16000)).map
          (fun w => Event.remoteCall (windowPayload (AudioFile.mk 2621440 [] [0]).pcm w)) ∧
    List.Pairwise (fun u v => u.1 < v.1)
      (chunkWindows (((AudioFile.mk 2621440 [] [0]).pcm.length : ℚ) / 16000)) ∧
    (∀ (call2 : Oracle) (b : List Nat),
      Event.remoteCall (Payload.file b) ∉
        (processAudioWithGemini (some []) call2 (AudioFile.mk 2621440 [] [0])).1)) :=
  ⟨⟨by norm_num [CHUNK_THRESHOLD_BYTES], by norm_num [CHUNK_THRESHOLD_BYTES],
      fun k p => ⟨[], rfl⟩⟩,
    processAudioWithGemini_router [] (fun _ _ => .ok [])
      (AudioFile.mk 2621439 [7] []) (AudioFile.mk 2621440 [] [0])
      (by norm_num [CHUNK_THRESHOLD_BYTES])
      (by norm_num [CHUNK_THRESHOLD_BYTES])
      (fun k p => ⟨[], rfl⟩)⟩

theorem append_dash_inj : ∀ {a1 a2 b1 b2 : List Nat},
    45 ∉ a1 → 45 ∉ a2 → a1 ++ 45 :: b1 = a2 ++ 45 :: b2 → a1 = a2 ∧ b1 = b2 := by
  intro a1
  induction a1 with
  | nil =>
    intro a2 b1 b2 _ h2 h
    cases a2 with
    | nil => simpa using h
    | cons d u =>
      simp only [List.nil_append, List.cons_append, List.cons.injEq] at h
      exact absurd (h.1 ▸ List.mem_cons_self d u) h2
  | cons c t ih =>
    intro a2 b1 b2 h1 h2 h
    cases a2 with
    | nil =>
      simp only [List.cons_append, List.nil_append, List.cons.injEq] at h
      exact absurd (h.1 ▸ List.mem_cons_self c t) h1
    | cons d u =>
      simp only [List.cons_append, List.cons.injEq] at h
      obtain ⟨rfl, h⟩ := h
      obtain ⟨rfl, rfl⟩ := ih (fun hm => h1 (List.mem_cons_of_mem _ hm))
        (fun hm => h2 (List.mem_cons_of_mem _ hm)) h
      exact ⟨rfl, rfl⟩

theorem qDec_digit_range {t : ℚ} {c : Nat} (h : c ∈ qDec t) : 48 ≤ c ∧ c ≤ 57 :=
  natDec_digit_range h

theorem qDec_no_dash {t : ℚ} : 45 ∉ qDec t := by
  intro h
  have := qDec_digit_range h
  omega

theorem combineId_inj {t1 t2 : ℚ} {i1 i2 : List Nat}
    (h : combineId t1 i1 = combineId t2 i2) : qDec t1 = qDec t2 ∧ i1 = i2 := by
  unfold combineId at h
  simp only [List.append_assoc] at h
  exact append_dash_inj qDec_no_dash qDec_no_dash (List.append_cancel_left h)

theorem qDec_natCast (k : Nat) : qDec ((k : ℕ) : ℚ) = natDec k := by
  unfold qDec
  rw [Rat.num_natCast, Int.toNat_natCast]

/-- C2: the stitcher returns a permutation of the concatenation, in window
order, of every window's segments with start/end times offset by the window
start and ids rederived by combining the window start with the original id;
the output is sorted ascending by start time, the sort is stable (elements
with any fixed start time keep their concatenation order), and the ids are
pairwise distinct whenever window starts are distinct nonnegative integers
and each window's own ids are distinct. -/
theorem stitch_spec (windows : List (ℚ × List SubtitleSegment))
    (hnat : ∀ w ∈ windows, ∃ k : Nat, w.1 = ((k : ℕ) : ℚ))
    (hstarts : (windows.map Prod.fst).Nodup)
    (hinner : ∀ w ∈ windows, (w.2.map SubtitleSegment.id).Nodup) :
    List.Perm (stitch windows) (windows.flatMap (fun w => w.2.map (fun s =>
      SubtitleSegment.mk (combineId w.1 s.id) (s.startTime + w.1)
        (s.endTime + w.1) s.originalText s.translatedText))) ∧
    List.Pairwise (fun a b => a.startTime ≤ b.startTime) (stitch windows) ∧
    (∀ q : ℚ, (stitch windows).filter (fun s => decide (s.startTime = q)) =
      (windows.flatMap (fun w => w.2.map (adjustSeg w.1))).filter
        (fun s => decide (s.startTime = q))) ∧
    ((stitch windows).map SubtitleSegment.id).Nodup := by
  have htrans : ∀ (a b c : SubtitleSegment),
      (fun x y : SubtitleSegment => decide (x.startTime ≤ y.startTime)) a b = true →
      (fun x y : SubtitleSegment => decide (x.startTime ≤ y.startTime)) b c = true →
      (fun x y : SubtitleSegment => decide (x.startTime ≤ y.startTime)) a c = true := by
    intro a b c h1 h2
    simp only [decide_eq_true_eq] at h1 h2 ⊢
    exact le_trans h1 h2
  have htotal : ∀ (a b : SubtitleSegment),
      ((fun x y : SubtitleSegment => decide (x.startTime ≤ y.startTime)) a b ||
        (fun x y : SubtitleSegment => decide (x.startTime ≤ y.startTime)) b a) = true := by
    intro a b
    simp only [Bool.or_eq_true, decide_eq_true_eq]
    exact le_total _ _
  refine ⟨?_, ?_, ?_, ?_⟩
  · exact List.mergeSort_perm _ _
  · have hs := List.sorted_mergeSort htrans htotal
      (windows.flatMap (fun w => w.2.map (adjustSeg w.1)))
    exact hs.imp (fun h => of_decide_eq_true h)
  · intro q
    have hsub0 : List.Sublist
        ((windows.flatMap (fun w => w.2.map (adjustSeg w.1))).filter
          (fun s => decide (s.startTime = q)))
        (windows.flatMap (fun w => w.2.map (adjustSeg w.1))) :=
      List.filter_sublist _
    have hcp : List.Pairwise
        (fun a b : SubtitleSegment =>
          (fun x y : SubtitleSegment => decide (x.startTime ≤ y.startTime)) a b = true)
        ((windows.flatMap (fun w => w.2.map (adjustSeg w.1))).filter
          (fun s => decide (s.startTime = q))) := by
      rw [List.pairwise_iff_forall_sublist]
      intro a b hab
      have ha : a ∈ (windows.flatMap (fun w => w.2.map (adjustSeg w.1))).filter
          (fun s => decide (s.startTime = q)) := hab.subset (by simp)
      have hb : b ∈ (windows.flatMap (fun w => w.2.map (adjustSeg w.1))).filter
          (fun s => decide (s.startTime = q)) := hab.subset (by simp)
      rw [List.mem_filter] at ha hb
      have ha2 := of_decide_eq_true ha.2
      have hb2 := of_decide_eq_true hb.2
      simp only [decide_eq_true_eq]
      rw [ha2, hb2]
    have h1 : List.Sublist
        ((windows.flatMap (fun w => w.2.map (adjustSeg w.1))).filter
          (fun s => decide (s.startTime = q)))
        ((windows.flatMap (fun w => w.2.map (adjustSeg w.1))).mergeSort
          (fun x y : SubtitleSegment => decide (x.startTime ≤ y.startTime))) :=
      List.sublist_mergeSort htrans htotal hcp hsub0
    have h3 : List.Sublist
        ((windows.flatMap (fun w => w.2.map (adjustSeg w.1))).filter
          (fun s => decide (s.startTime = q)))
        (((windows.flatMap (fun w => w.2.map (adjustSeg w.1))).mergeSort
          (fun x y : SubtitleSegment => decide (x.startTime ≤ y.startTime))).filter
            (fun s => decide (s.startTime = q))) := by
      have h2 : ((windows.flatMap (fun w => w.2.map (adjustSeg w.1))).filter
          (fun s => decide (s.startTime = q))).filter
            (fun s => decide (s.startTime = q)) =
          (windows.flatMap (fun w => w.2.map (adjustSeg w.1))).filter
            (fun s => decide (s.startTime = q)) :=
        List.filter_eq_self.mpr (fun a ha => (List.mem_filter.mp ha).2)
      rw [← h2]
      exact h1.filter _
    have h4 : (((windows.flatMap (fun w => w.2.map (adjustSeg w.1))).mergeSort
        (fun x y : SubtitleSegment => decide (x.startTime ≤ y.startTime))).filter
          (fun s => decide (s.startTime = q))).length =
        ((windows.flatMap (fun w => w.2.map (adjustSeg w.1))).filter
          (fun s => decide (s.startTime = q))).length :=
      ((List.mergeSort_perm _ _).filter _).length_eq
    exact (h3.eq_of_length h4.symm).symm
  · have hperm : List.Perm ((stitch windows).map SubtitleSegment.id)
        ((windows.flatMap (fun w => w.2.map (adjustSeg w.1))).map SubtitleSegment.id) :=
      (List.mergeSort_perm _ _).map _
    rw [hperm.nodup_iff, List.map_flatMap]
    have hfun : ∀ w : ℚ × List SubtitleSegment,
        ((w.2.map (adjustSeg w.1)).map SubtitleSegment.id) =
          (w.2.map SubtitleSegment.id).map (combineId w.1) := by
      intro w
      rw [List.map_map, List.map_map]
      rfl
    simp only [hfun]
    rw [List.nodup_flatMap]
    constructor
    · intro w hw
      refine (hinner w hw).map ?_
      intro i1 i2 hi
      exact (combineId_inj hi).2
    · have hpw : List.Pairwise
          (fun w1 w2 : ℚ × List SubtitleSegment => w1.1 ≠ w2.1) windows := by
        have := hstarts
        rw [List.Nodup, List.pairwise_map] at this
        exact this
      refine List.Pairwise.imp_of_mem ?_ hpw
      intro w1 w2 hw1 hw2 hne
      intro x hx1 hx2
      rw [List.mem_map] at hx1 hx2
      obtain ⟨j1, _, rfl⟩ := hx1
      obtain ⟨j2, _, hx⟩ := hx2
      have hq := (combineId_inj hx.symm).1
      obtain ⟨k1, hk1⟩ := hnat w1 hw1
      obtain ⟨k2, hk2⟩ := hnat w2 hw2
      rw [hk1, hk2, qDec_natCast, qDec_natCast] at hq
      exact hne (by rw [hk1, hk2, natDec_inj hq])

theorem stitch_exampleWindows :
    stitch exampleWindows =
      exampleWindows.flatMap (fun w => w.2.map (adjustSeg w.1)) := by
  unfold stitch sortSegs
  apply List.mergeSort_of_sorted
  simp only [exampleWindows, List.flatMap_cons, List.flatMap_nil, List.map_cons,
    List.map_nil, List.append_nil, List.nil_append, List.cons_append, adjustSeg]
  norm_num [List.pairwise_cons]

theorem stitch_example_times :
    (stitch exampleWindows).map (fun s => (s.startTime, s.endTime)) =
      [(0, 5), (60, 65), (120, 125)] := by
  rw [stitch_exampleWindows]
  simp only [exampleWindows, List.flatMap_cons, List.flatMap_nil, List.map_cons,
    List.map_nil, List.append_nil, List.nil_append, List.cons_append, adjustSeg]
  norm_num

/-- Witness for C2 at the three example windows. -/
theorem stitch_spec_witness :
    ((∀ w ∈ exampleWindows, ∃ k : Nat, w.1 = ((k : ℕ) : ℚ)) ∧
      (exampleWindows.map Prod.fst).Nodup ∧
      (∀ w ∈ exampleWindows, (w.2.map SubtitleSegment.id).Nodup)) ∧
    (List.Perm (stitch exampleWindows) (exampleWindows.flatMap (fun w => w.2.map (fun s =>
      SubtitleSegment.mk (combineId w.1 s.id) (s.startTime + w.1)
        (s.endTime + w.1) s.originalText s.translatedText))) ∧
    List.Pairwise (fun a b => a.startTime ≤ b.startTime) (stitch exampleWindows) ∧
    (∀ q : ℚ, (stitch exampleWindows).filter (fun s => decide (s.startTime = q)) =
      (exampleWindows.flatMap (fun w => w.2.map (adjustSeg w.1))).filter
        (fun s => decide (s.startTime = q))) ∧
    ((stitch exampleWindows).map SubtitleSegment.id).Nodup) :=
  ⟨⟨by
      intro w hw
      simp only [exampleWindows, List.mem_cons, List.not_mem_nil, or_false] at hw
      rcases hw with rfl | rfl | rfl
      · exact ⟨0, by norm_num⟩
      · exact ⟨60, by norm_num⟩
      · exact ⟨120, by norm_num⟩,
    by decide,
    by
      intro w hw
      simp only [exampleWindows, List.mem_cons, List.not_mem_nil, or_false] at hw
      rcases hw with rfl | rfl | rfl <;> decide⟩,
    stitch_spec exampleWindows
      (by
        intro w hw
        simp only [exampleWindows, List.mem_cons, List.not_mem_nil, or_false] at hw
        rcases hw with rfl | rfl | rfl
        · exact ⟨0, by norm_num⟩
        · exact ⟨60, by norm_num⟩
        · exact ⟨120, by norm_num⟩)
      (by decide)
      (by
        intro w hw
        simp only [exampleWindows, List.mem_cons, List.not_mem_nil, or_false] at hw
        rcases hw with rfl | rfl | rfl <;> decide)⟩

theorem jGet_ne_null {item : JValue} (h : item ≠ JValue.null) (key : List Nat) :
    jGet item key = .ok (jField item key) := by
  cases item with
  | null => exact absurd rfl h
  | bool b => rfl
  | num q => rfl
  | str s2 => rfl
  | arr xs => rfl
  | obj fs => rfl

theorem mapIdxCongr {α β : Type} : ∀ (l : List α) (f g : Nat → α → β),
    (∀ i a, f i a = g i a) → l.mapIdx f = l.mapIdx g := by
  intro l
  induction l with
  | nil => intro f g _; rfl
  | cons a t ih =>
    intro f g h
    rw [List.mapIdx_cons, List.mapIdx_cons, h 0 a, ih _ _ (fun i a => h (i + 1) a)]

theorem mapElements_ok (now : Nat) : ∀ (items : List JValue) (i : Nat),
    (∀ item ∈ items, item ≠ JValue.null) →
    mapElements now i items = .ok (items.mapIdx (fun j item =>
      ParsedSegment.mk (innerId now (i + j))
        (jField item (strCodes "startTime")) (jField item (strCodes "endTime"))
        (jField item (strCodes "originalText"))
        (jField item (strCodes "translatedText")))) := by
  intro items
  induction items with
  | nil => intro i _; rfl
  | cons a rest ih =>
    intro i hnn
    have ha : a ≠ JValue.null := hnn a (List.mem_cons_self a rest)
    have hrest : ∀ item ∈ rest, item ≠ JValue.null :=
      fun x hx => hnn x (List.mem_cons_of_mem _ hx)
    have hpe : parseElement now i a = .ok (ParsedSegment.mk (innerId now i)
        (jField a (strCodes "startTime")) (jField a (strCodes "endTime"))
        (jField a (strCodes "originalText"))
        (jField a (strCodes "translatedText"))) := by
      unfold parseElement
      rw [jGet_ne_null ha, jGet_ne_null ha, jGet_ne_null ha, jGet_ne_null ha]
      rfl
    have hstep : mapElements now i (a :: rest) =
        .ok (ParsedSegment.mk (innerId now i)
          (jField a (strCodes "startTime")) (jField a (strCodes "endTime"))
          (jField a (strCodes "originalText"))
          (jField a (strCodes "translatedText")) ::
            rest.mapIdx (fun j item => ParsedSegment.mk (innerId now (i + 1 + j))
              (jField item (strCodes "startTime")) (jField item (strCodes "endTime"))
              (jField item (strCodes "originalText"))
              (jField item (strCodes "translatedText")))) := by
      simp only [mapElements]
      rw [hpe, ih (i + 1) hrest]
      rfl
    rw [hstep, List.mapIdx_cons]
    congr 1
    congr 1
    refine mapIdxCongr rest _ _ ?_
    intro j item
    rw [show i + 1 + j = i + (j + 1) by omega]

theorem mapElements_error (now : Nat) : ∀ (items : List JValue) (i : Nat),
    JValue.null ∈ items → ∃ m, mapElements now i items = .error m := by
  intro items
  induction items with
  | nil => intro i h; simp at h
  | cons a rest ih =>
    intro i h
    rcases List.mem_cons.mp h with ha | hmem
    · refine ⟨nullAccessErrorMsg (strCodes "startTime"), ?_⟩
      rw [← ha]
      rfl
    · cases hpe : parseElement now i a with
      | error m =>
        refine ⟨m, ?_⟩
        simp only [mapElements]
        rw [hpe]
        rfl
      | ok s =>
        obtain ⟨m, hm⟩ := ih (i + 1) hmem
        refine ⟨m, ?_⟩
        simp only [mapElements]
        rw [hpe, hm]
        rfl

/-- On a null array element the whole map throws at the first property
access, exactly as the source does at `item.startTime`. -/
theorem parseSingleChunkResponse_nullElem :
    parseSingleChunkResponse 0 (some (some (JValue.arr [JValue.null]))) =
      .error (nullAccessErrorMsg (strCodes "startTime")) := rfl

/-- C7 counterexample: a reply that parses to an array whose single element
is an object with none of the mandatory fields is not of the declared shape,
yet the client does not fail — it returns one segment whose four fields are
all absent. -/
theorem parseSingleChunkResponse_counterexample :
    declaredShape (JValue.arr [JValue.obj []]) = false ∧
    parseSingleChunkResponse 0 (some (some (JValue.arr [JValue.obj []]))) =
      .ok [ParsedSegment.mk (innerId 0 0) none none none none] := by
  constructor
  · rfl
  · rfl

/-- C7 amended: the client fails iff the reply text is missing or empty,
fails to parse as JSON, parses to a non-array, or is an array containing a
null element (whose property access throws); other elements are not
validated against the declared schema — each yields exactly one segment
whose four fields are copied by property access, absent fields being copied
as absent. -/
theorem parseSingleChunkResponse_spec (now : Nat) (reply : Option (Option JValue)) :
    ((∃ m, parseSingleChunkResponse now reply = .error m) ↔
      (reply = none ∨ reply = some none ∨
        (∃ v, reply = some (some v) ∧ ∀ items, v ≠ JValue.arr items) ∨
        (∃ items, reply = some (some (JValue.arr items)) ∧ JValue.null ∈ items))) ∧
    (∀ items, reply = some (some (JValue.arr items)) → JValue.null ∉ items →
      parseSingleChunkResponse now reply =
        .ok (items.mapIdx (fun i item => ParsedSegment.mk (innerId now i)
          (jField item (strCodes "startTime")) (jField item (strCodes "endTime"))
          (jField item (strCodes "originalText"))
          (jField item (strCodes "translatedText"))))) := by
  constructor
  · constructor
    · rintro ⟨m, hm⟩
      cases reply with
      | none => exact Or.inl rfl
      | some r =>
        cases r with
        | none => exact Or.inr (Or.inl rfl)
        | some v =>
          cases v with
          | arr items =>
            refine Or.inr (Or.inr (Or.inr ⟨items, rfl, ?_⟩))
            by_contra hnull
            have hok := mapElements_ok now items 0
              (fun item hi heq => hnull (heq ▸ hi))
            rw [show parseSingleChunkResponse now (some (some (JValue.arr items))) =
              mapElements now 0 items from rfl, hok] at hm
            exact absurd hm (by simp)
          | null =>
            exact Or.inr (Or.inr (Or.inl ⟨_, rfl, fun items h => JValue.noConfusion h⟩))
          | bool b =>
            exact Or.inr (Or.inr (Or.inl ⟨_, rfl, fun items h => JValue.noConfusion h⟩))
          | num q =>
            exact Or.inr (Or.inr (Or.inl ⟨_, rfl, fun items h => JValue.noConfusion h⟩))
          | str s2 =>
            exact Or.inr (Or.inr (Or.inl ⟨_, rfl, fun items h => JValue.noConfusion h⟩))
          | obj fs =>
            exact Or.inr (Or.inr (Or.inl ⟨_, rfl, fun items h => JValue.noConfusion h⟩))
    · rintro (rfl | rfl | ⟨v, rfl, hv⟩ | ⟨items, rfl, hnull⟩)
      · exact ⟨noResponseMsg, rfl⟩
      · exact ⟨parseFailMsg, rfl⟩
      · cases v with
        | arr items => exact absurd rfl (hv items)
        | null => exact ⟨notArrayMsg, rfl⟩
        | bool b => exact ⟨notArrayMsg, rfl⟩
        | num q => exact ⟨notArrayMsg, rfl⟩
        | str s2 => exact ⟨notArrayMsg, rfl⟩
        | obj fields => exact ⟨notArrayMsg, rfl⟩
      · exact mapElements_error now items 0 hnull
  · intro items hitem hnull
    subst hitem
    have hok := mapElements_ok now items 0 (fun item hi heq => hnull (heq ▸ hi))
    rw [show parseSingleChunkResponse now (some (some (JValue.arr items))) =
      mapElements now 0 items from rfl, hok]
    congr 1
    refine mapIdxCongr items _ _ ?_
    intro j item
    rw [Nat.zero_add]

/-- Witness for the amended C7 at a concrete unvalidated-array reply. -/
theorem parseSingleChunkResponse_spec_witness :
    (((∃ m, parseSingleChunkResponse 0 (some (some (JValue.arr [JValue.obj []]))) =
        .error m) ↔
      ((some (some (JValue.arr [JValue.obj []])) :
          Option (Option JValue)) = none ∨
        (some (some (JValue.arr [JValue.obj []])) :
          Option (Option JValue)) = some none ∨
        (∃ v, (some (some (JValue.arr [JValue.obj []])) :
            Option (Option JValue)) = some (some v) ∧
          ∀ items, v ≠ JValue.arr items) ∨
        (∃ items, (some (some (JValue.arr [JValue.obj []])) :
            Option (Option JValue)) = some (some (JValue.arr items)) ∧
          JValue.null ∈ items))) ∧
    (∀ items, (some (some (JValue.arr [JValue.obj []])) :
        Option (Option JValue)) = some (some (JValue.arr items)) →
      JValue.null ∉ items →
      parseSingleChunkResponse 0 (some (some (JValue.arr [JValue.obj []]))) =
        .ok (items.mapIdx (fun i item => ParsedSegment.mk (innerId 0 i)
          (jField item (strCodes "startTime")) (jField item (strCodes "endTime"))
          (jField item (strCodes "originalText"))
          (jField item (strCodes "translatedText")))))) :=
  parseSingleChunkResponse_spec 0 (some (some (JValue.arr [JValue.obj []])))

theorem formatTime_char_le {t : ℚ} {c : Nat} (h : c ∈ formatTime t) : c ≤ 58 := by
  unfold formatTime padTwo at h
  simp only [List.mem_append, List.mem_cons, List.mem_replicate] at h
  rcases h with h | h | h
  · exact (natDec_digit_range h).2.trans (by norm_num)
  · omega
  · rcases h with ⟨_, rfl⟩ | h
    · norm_num
    · exact (natDec_digit_range h).2.trans (by norm_num)

theorem not_mem_chunkFailMsg {t : ℚ} {c : Nat} (hc1 : 59 ≤ c)
    (hc2 : c ∉ strCodes "Failed to process audio segment at ")
    (hc3 : c ∉ strCodes ". API Error.") : c ∉ chunkFailMsg t := by
  unfold chunkFailMsg
  simp only [List.mem_append]
  rintro ((h | h) | h)
  · exact hc2 h
  · have := formatTime_char_le h
    omega
  · exact hc3 h

/-- A window-level failure message never looks like a transport error: it
contains no capital R and no letter x, so neither needle matches. -/
theorem chunkFailMsg_not_network (t : ℚ) :
    isNetworkErrorMsg (chunkFailMsg t) = false := by
  have h82 : (82 : Nat) ∉ chunkFailMsg t :=
    not_mem_chunkFailMsg (by norm_num) (by decide) (by decide)
  have h120 : (120 : Nat) ∉ chunkFailMsg t :=
    not_mem_chunkFailMsg (by norm_num) (by decide) (by decide)
  have hrpc : strCodes "Rpc failed" = 82 :: strCodes "pc failed" := rfl
  have hxhr : strCodes "xhr error" = 120 :: strCodes "hr error" := rfl
  unfold isNetworkErrorMsg
  cases hr : containsSub (strCodes "Rpc failed") (chunkFailMsg t) with
  | true =>
    rw [hrpc] at hr
    exact absurd (containsSub_head_mem hr) h82
  | false =>
    cases hx : containsSub (strCodes "xhr error") (chunkFailMsg t) with
    | true =>
      rw [hxhr] at hx
      exact absurd (containsSub_head_mem hx) h120
    | false => rfl

/-- C8 counterexample: on the chunked path, a window whose transport call
fails with an RPC-failure message (one the network test recognizes) surfaces
the window-level error, not the payload-size rewrite. -/
theorem networkError_rewrite_counterexample :
    isNetworkErrorMsg (strCodes "Rpc failed") = true ∧
    (processAudioWithGemini (some [])
        (fun _ _ => .error (strCodes "Rpc failed"))
        (AudioFile.mk 2621440 [] [0])).2 =
      .error (chunkFailMsg 0) ∧
    chunkFailMsg 0 ≠ networkErrorMsg := by
  refine ⟨by decide, ?_, ?_⟩
  · have hsingle : chunkWindows ((([0] : List ℚ).length : ℚ) / 16000) =
        [(0, (([0] : List ℚ).length : ℚ) / 16000)] :=
      chunkWindows_eq_single (by norm_num) (by norm_num)
    have hj : 0 < (chunkLoop (chunkFuel ((([0] : List ℚ).length : ℚ) / 16000)) 0
        ((([0] : List ℚ).length : ℚ) / 16000) CHUNK_DURATION_SECONDS).length := by
      rw [show chunkLoop (chunkFuel ((([0] : List ℚ).length : ℚ) / 16000)) 0
        ((([0] : List ℚ).length : ℚ) / 16000) CHUNK_DURATION_SECONDS =
        chunkWindows ((([0] : List ℚ).length : ℚ) / 16000) from rfl, hsingle]
      decide
    have hfl := chunkedLoop_fail (fun _ _ => .error (strCodes "Rpc failed")) [0]
      (chunkFuel ((([0] : List ℚ).length : ℚ) / 16000)) 0 0 0
      ((([0] : List ℚ).length : ℚ) / 16000) [] hj
      (by intro i hi; exact absurd hi (by omega))
      ⟨strCodes "Rpc failed", rfl⟩
    have hbranch : ¬ (((AudioFile.mk 2621440 [] [0]).size : ℕ) : ℚ) <
        CHUNK_THRESHOLD_BYTES := by
      norm_num [CHUNK_THRESHOLD_BYTES]
    unfold processAudioWithGemini
    rw [if_neg hbranch]
    unfold processChunkedAudio
    rw [hfl]
    have hstart : ((chunkLoop (chunkFuel ((([0] : List ℚ).length : ℚ) / 16000)) 0
        ((([0] : List ℚ).length : ℚ) / 16000) CHUNK_DURATION_SECONDS).getD 0 (0, 0)).1 =
        (0 : ℚ) := by
      rw [show chunkLoop (chunkFuel ((([0] : List ℚ).length : ℚ) / 16000)) 0
        ((([0] : List ℚ).length : ℚ) / 16000) CHUNK_DURATION_SECONDS =
        chunkWindows ((([0] : List ℚ).length : ℚ) / 16000) from rfl, hsingle]
      rfl
    rw [hstart]
    simp [rewriteTopLevel, chunkFailMsg_not_network]
  · intro h
    have hL : (chunkFailMsg 0).getD 0 0 = 70 := rfl
    rw [h] at hL
    have hR : networkErrorMsg.getD 0 0 = 78 := rfl
    rw [hR] at hL
    exact absurd hL (by norm_num)

/-- C8 amended: the payload-size rewrite applies to transport failures only
on the single-shot path; on the chunked path a failing window — transport or
not — surfaces as the unrewritten window error naming the failing window's
start time.  In both paths the failing call is dispatched exactly once and
nothing is dispatched after it: there is no retry. -/
theorem networkError_handling (key : List Nat) (call : Oracle) (f g : AudioFile)
    (hf : (f.size : ℚ) < CHUNK_THRESHOLD_BYTES)
    (hg : ¬ (g.size : ℚ) < CHUNK_THRESHOLD_BYTES)
    (m : List Nat) (hm : call 0 (Payload.file f.bytes) = .error m)
    (hnet : isNetworkErrorMsg m = true)
    (D : ℚ) (ws : List (ℚ × ℚ)) (j : Nat) (call2 : Oracle)
    (hD : D = (g.pcm.length : ℚ) / 16000) (hws : ws = chunkWindows D)
    (hj : j < ws.length)
    (hprev : ∀ i, i < j → ∃ segs,
      call2 i (windowPayload g.pcm (ws.getD i (0, 0))) = .ok segs)
    (hfail : ∃ m2, call2 j (windowPayload g.pcm (ws.getD j (0, 0))) = .error m2) :
    processAudioWithGemini (some key) call f =
      ([Event.readFile, Event.remoteCall (Payload.file f.bytes)],
        .error networkErrorMsg) ∧
    processAudioWithGemini (some key) call2 g =
      (Event.readFile :: Event.decodeResample ::
        (ws.take (j + 1)).map (fun w => Event.remoteCall (windowPayload g.pcm w)),
        .error (chunkFailMsg ((ws.getD j (0, 0))).1)) := by
  constructor
  · unfold processAudioWithGemini
    rw [if_pos hf]
    simp [processSingleChunk, rewriteTopLevel, hm, hnet]
  · subst hD
    subst hws
    have hcw : chunkWindows ((g.pcm.length : ℚ) / 16000) =
        chunkLoop (chunkFuel ((g.pcm.length : ℚ) / 16000)) 0
          ((g.pcm.length : ℚ) / 16000) CHUNK_DURATION_SECONDS := rfl
    rw [hcw] at hj hprev hfail ⊢
    have hfl := chunkedLoop_fail call2 g.pcm
      (chunkFuel ((g.pcm.length : ℚ) / 16000)) j 0 0
      ((g.pcm.length : ℚ) / 16000) [] hj
      (by intro i hi; simpa using hprev i hi)
      (by simpa using hfail)
    unfold processAudioWithGemini
    rw [if_neg hg]
    unfold processChunkedAudio
    rw [hfl]
    simp [rewriteTopLevel, chunkFailMsg_not_network]

/-- Witness for the amended C8: a small and a large file, each failing with
an RPC-failure transport message. -/
theorem networkError_handling_witness :
    (((AudioFile.mk 0 [] []).size : ℚ) < CHUNK_THRESHOLD_BYTES ∧
      ¬ (((AudioFile.mk 2621440 [] [0]).size : ℕ) : ℚ) < CHUNK_THRESHOLD_BYTES ∧
      (fun (_ : Nat) (_ : Payload) =>
        (.error (strCodes "Rpc failed") :
          Except (List Nat) (List SubtitleSegment))) 0
        (Payload.file (AudioFile.mk 0 [] []).bytes) =
          .error (strCodes "Rpc failed") ∧
      isNetworkErrorMsg (strCodes "Rpc failed") = true ∧
      0 < (chunkWindows (((AudioFile.mk 2621440 [] [0]).pcm.length : ℚ) / 16000)).length) ∧
    (processAudioWithGemini (some [])
        (fun _ _ => .error (strCodes "Rpc failed")) (AudioFile.mk 0 [] []) =
      ([Event.readFile, Event.remoteCall (Payload.file (AudioFile.mk 0 [] []).bytes)],
        .error networkErrorMsg) ∧
    processAudioWithGemini (some [])
        (fun _ _ => .error (strCodes "Rpc failed")) (AudioFile.mk 2621440 [] [0]) =
      (Event.readFile :: Event.decodeResample ::
        ((chunkWindows (((AudioFile.mk 2621440 [] [0]).pcm.length : ℚ) / 16000)).take
            (0 + 1)).map
          (fun w => Event.remoteCall
            (windowPayload (AudioFile.mk 2621440 [] [0]).pcm w)),
        .error (chunkFailMsg
          (((chunkWindows (((AudioFile.mk 2621440 [] [0]).pcm.length : ℚ) / 16000)).getD 0
            (0, 0))).1))) :=
  ⟨⟨by norm_num [CHUNK_THRESHOLD_BYTES], by norm_num [CHUNK_THRESHOLD_BYTES], rfl,
      by decide,
      by rw [chunkWindows_eq_single (by norm_num) (by norm_num)]; decide⟩,
    networkError_handling [] (fun _ _ => .error (strCodes "Rpc failed"))
      (AudioFile.mk 0 [] []) (AudioFile.mk 2621440 [] [0])
      (by norm_num [CHUNK_THRESHOLD_BYTES]) (by norm_num [CHUNK_THRESHOLD_BYTES])
      (strCodes "Rpc failed") rfl (by decide) _ _ 0
      (fun _ _ => .error (strCodes "Rpc failed")) rfl rfl
      (by rw [chunkWindows_eq_single (by norm_num) (by norm_num)]; decide)
      (by intro i hi; exact absurd hi (by omega))
      ⟨strCodes "Rpc failed", rfl⟩⟩

end AudioPipeline